import Mathlib

/-!
Verification of the agent supervision and lifecycle subsystem of
`src/pydcop/commands/agent.py`.

The embedding is shallow:

* `start_agents` is translated as a pure function returning the list of
  constructed agent handles together with the ordered list of observable
  events (log lines and `start()` calls) it emits.
* `runCmd` with `--restart` unset is translated as a function from the
  parsed arguments to an outcome (or a synchronous error for a malformed
  orchestrator address, mirroring the `ValueError` raised by the tuple
  unpacking of `args.orchestrator.split(':')`).
* The `--restart` supervisory loop together with the asynchronous
  `on_force_exit` handler is translated as a small-step transition system:
  the loop is cut at the statement boundaries at which a Python signal
  handler may run, and an execution is a sequence of labels interleaving
  supervisor steps (`Label.sup`) with handler invocations (`Label.force`).
  The shared process-wide state (`force_stopped`, `agents`, and the implicit
  position inside the loop body) is the `Core` record; each step emits the
  observable events of the statements it executes.

Machine integers do not overflow here (Python ints are unbounded), so ports
are modelled as `Nat` (`0` is the only falsy port value, as in Python).
-/

namespace PydcopAgent

/-- One agent handle as constructed in `start_agents`: the `AgentDef(a)` name,
the `HttpCommunicationLayer((a_addr, a_port))` parameters, the orchestrator
`(o_addr, o_port)` pair, and the `ui_port=u_port` keyword argument (passed
through unchanged, `None` or the current integer value). -/
structure OrchestratedAgent where
  name : String
  commAddress : Option String
  commPort : Nat
  orchAddr : String
  orchPort : Int
  uiPort : Option Nat
deriving DecidableEq

/-- Observable events of the embedded code, in emission order: the log lines
of `start_agents` and of the `runCmd` loop, the `start()` / `join()` /
`stop()` calls on agent handles (identified by agent name and message port,
which are unique within a cohort), the invocation of `start_agents` itself
(`launch`, carrying the cohort it returns), the cooldown `sleep`, and the
`print('FORCE EXIT')` of `on_force_exit`. -/
inductive Event where
  | logStartUi (name : String) (port uiport : Nat)
  | logStartNoUi (name : String) (port : Nat)
  | startAgent (name : String) (port : Nat)
  | logAllStarted (n : Nat)
  | launch (cohort : List OrchestratedAgent)
  | joinAgent (name : String) (port : Nat)
  | logAllStopped
  | logWaitRestart
  | sleepFor (secs : Nat)
  | printForceExit
  | stopAgent (name : String) (port : Nat)
deriving DecidableEq

/-- Python truthiness of the optional `u_port` value, as tested by
`if u_port:` in `start_agents`: `None` and `0` are falsy, any positive
port value is truthy. -/
def truthy : Option Nat → Bool
  | some (_ + 1) => true
  | _ => false

/-- The per-agent log line of `start_agents`: `with ui-server on u_port`
when `u_port` is truthy, `without ui-server` otherwise. -/
def logStartEvent (a : String) (aPort : Nat) (uPort : Option Nat) : Event :=
  match uPort with
  | some (u + 1) => Event.logStartUi a aPort (u + 1)
  | _ => Event.logStartNoUi a aPort

/-- The statement `if u_port: u_port += 1` at the end of each iteration of
the `start_agents` loop: incremented only when truthy, so `None` and `0`
are left unchanged. -/
def nextUPort : Option Nat → Option Nat
  | some (u + 1) => some (u + 2)
  | other => other

/-- The `for a in names:` loop of `start_agents`, carrying the mutable
`a_port` and `u_port` variables: logs, constructs the handle, `start()`s it,
appends it, then executes `a_port += 1` and `if u_port: u_port += 1`. -/
def startAgentsLoop (oAddr : String) (oPort : Int) (aAddr : Option String) :
    List String → Nat → Option Nat → List OrchestratedAgent × List Event
  | [], _, _ => ([], [])
  | a :: rest, aPort, uPort =>
    let r := startAgentsLoop oAddr oPort aAddr rest (aPort + 1) (nextUPort uPort)
    (⟨a, aAddr, aPort, oAddr, oPort, uPort⟩ :: r.1,
     logStartEvent a aPort uPort :: Event.startAgent a aPort :: r.2)

/-- `start_agents(names, o_addr, o_port, u_port, a_addr, a_port)`: runs the
loop over `names` and then logs `All %s agents started` with `len(names)`;
returns the list of started agents and the emitted events. -/
def start_agents (names : List String) (oAddr : String) (oPort : Int)
    (uPort : Option Nat) (aAddr : Option String) (aPort : Nat) :
    List OrchestratedAgent × List Event :=
  ((startAgentsLoop oAddr oPort aAddr names aPort uPort).1,
   (startAgentsLoop oAddr oPort aAddr names aPort uPort).2
     ++ [Event.logAllStarted names.length])

/-- Modelled from the spec: the `OrchestratedAgent` class itself is not under
`src/` (only its constructor call is), so whether a constructed handle runs a
ui-server is taken from the spec's agent-handle contract — the constructor
takes a `uiPort-or-absent` argument and a ui-server exists exactly when an
effective (truthy) UI port was handed to the agent. -/
def hasUiServer (h : OrchestratedAgent) : Bool :=
  truthy h.uiPort

/-- The externally observable description of a handle: everything the caller
can see about the launched agent apart from the raw `ui_port` argument value
(name, listen address, message port, orchestrator address, and whether a
ui-server runs). -/
def obsAgent (h : OrchestratedAgent) :
    String × Option String × Nat × String × Int × Bool :=
  (h.name, h.commAddress, h.commPort, h.orchAddr, h.orchPort, hasUiServer h)

/-- Recognizer for `Event.launch` events. -/
def isLaunchEv : Event → Bool
  | Event.launch _ => true
  | _ => false

/-- Number of cohort launches recorded in a trace. -/
def countLaunch (t : List Event) : Nat :=
  t.countP isLaunchEv

/-- Number of `stop()` calls delivered to the handle identified by
name `nm` and message port `p` in a trace. -/
def countStop (nm : String) (p : Nat) (t : List Event) : Nat :=
  t.countP fun e => decide (e = Event.stopAgent nm p)

/-- Number of handles with name `nm` and message port `p` in a cohort. -/
def countHandle (nm : String) (p : Nat) (l : List OrchestratedAgent) : Nat :=
  l.countP fun h => decide (h.name = nm ∧ h.commPort = p)

/-- Recognizer for the event kinds `start_agents` can emit. -/
def isSpawnEvent : Event → Bool
  | Event.logStartUi _ _ _ => true
  | Event.logStartNoUi _ _ => true
  | Event.startAgent _ _ => true
  | Event.logAllStarted _ => true
  | _ => false

lemma range_map_succ_shift {α : Type} (f : Nat → α) (n : Nat) :
    (List.range (n + 1)).map f = f 0 :: (List.range n).map (fun i => f (i + 1)) := by
  rw [List.range_succ_eq_map, List.map_cons, List.map_map]
  rfl

section StartAgentsLemmas

variable (oa : String) (op : Int) (aa : Option String)

lemma startAgentsLoop_length (ns : List String) :
    ∀ (ap : Nat) (u : Option Nat),
      ((startAgentsLoop oa op aa ns ap u).1).length = ns.length := by
  induction ns with
  | nil => intro ap u; simp [startAgentsLoop]
  | cons a rest ih => intro ap u; simp [startAgentsLoop, ih]

lemma startAgentsLoop_map_name (ns : List String) :
    ∀ (ap : Nat) (u : Option Nat),
      ((startAgentsLoop oa op aa ns ap u).1.map fun h => h.name) = ns := by
  induction ns with
  | nil => intro ap u; simp [startAgentsLoop]
  | cons a rest ih => intro ap u; simp [startAgentsLoop, ih]

lemma startAgentsLoop_map_commPort (ns : List String) :
    ∀ (ap : Nat) (u : Option Nat),
      ((startAgentsLoop oa op aa ns ap u).1.map fun h => h.commPort)
        = (List.range ns.length).map (fun i => ap + i) := by
  induction ns with
  | nil => intro ap u; simp [startAgentsLoop]
  | cons a rest ih =>
    intro ap u
    simp only [startAgentsLoop, List.map_cons, List.length_cons, ih,
      range_map_succ_shift]
    rw [List.cons_eq_cons]
    refine ⟨show ap = ap + 0 by omega, List.map_congr_left fun i _ => ?_⟩
    show ap + 1 + i = ap + (i + 1)
    omega

lemma startAgentsLoop_map_uiPort_pos (ns : List String) :
    ∀ (ap u : Nat),
      ((startAgentsLoop oa op aa ns ap (some (u + 1))).1.map fun h => h.uiPort)
        = (List.range ns.length).map (fun i => some (u + 1 + i)) := by
  induction ns with
  | nil => intro ap u; simp [startAgentsLoop]
  | cons a rest ih =>
    intro ap u
    simp only [startAgentsLoop, nextUPort, List.map_cons, List.length_cons,
      range_map_succ_shift]
    have tail := ih (ap + 1) (u + 1)
    rw [List.cons_eq_cons]
    refine ⟨show some (u + 1) = some (u + 1 + 0) by simp, ?_⟩
    rw [tail]
    refine List.map_congr_left fun i _ => ?_
    show some (u + 1 + 1 + i) = some (u + 1 + (i + 1))
    rw [Option.some_inj]
    omega

lemma startAgentsLoop_map_uiPort_none (ns : List String) :
    ∀ (ap : Nat),
      ((startAgentsLoop oa op aa ns ap none).1.map fun h => h.uiPort)
        = List.replicate ns.length none := by
  induction ns with
  | nil => intro ap; simp [startAgentsLoop]
  | cons a rest ih =>
    intro ap
    simp [startAgentsLoop, nextUPort, ih, List.replicate_succ]

lemma startAgentsLoop_map_uiPort_zero (ns : List String) :
    ∀ (ap : Nat),
      ((startAgentsLoop oa op aa ns ap (some 0)).1.map fun h => h.uiPort)
        = List.replicate ns.length (some 0) := by
  induction ns with
  | nil => intro ap; simp [startAgentsLoop]
  | cons a rest ih =>
    intro ap
    simp [startAgentsLoop, nextUPort, ih, List.replicate_succ]

lemma startAgentsLoop_trace_zero_eq_none (ns : List String) :
    ∀ (ap : Nat),
      (startAgentsLoop oa op aa ns ap (some 0)).2
        = (startAgentsLoop oa op aa ns ap none).2 := by
  induction ns with
  | nil => intro ap; simp [startAgentsLoop]
  | cons a rest ih =>
    intro ap
    simp [startAgentsLoop, nextUPort, logStartEvent, ih]

lemma startAgentsLoop_obs_zero_eq_none (ns : List String) :
    ∀ (ap : Nat),
      ((startAgentsLoop oa op aa ns ap (some 0)).1.map obsAgent)
        = ((startAgentsLoop oa op aa ns ap none).1.map obsAgent) := by
  induction ns with
  | nil => intro ap; simp [startAgentsLoop]
  | cons a rest ih =>
    intro ap
    simp [startAgentsLoop, nextUPort, obsAgent, hasUiServer, truthy, ih]

lemma startAgentsLoop_start_mem (ns : List String) :
    ∀ (ap : Nat) (u : Option Nat) (h : OrchestratedAgent),
      h ∈ (startAgentsLoop oa op aa ns ap u).1 →
        Event.startAgent h.name h.commPort ∈ (startAgentsLoop oa op aa ns ap u).2 := by
  induction ns with
  | nil => intro ap u h hm; simp [startAgentsLoop] at hm
  | cons a rest ih =>
    intro ap u h hm
    simp only [startAgentsLoop, List.mem_cons] at hm ⊢
    rcases hm with rfl | hm
    · exact Or.inr (Or.inl rfl)
    · exact Or.inr (Or.inr (ih _ _ _ hm))

lemma startAgentsLoop_trace_kinds (ns : List String) :
    ∀ (ap : Nat) (u : Option Nat) (e : Event),
      e ∈ (startAgentsLoop oa op aa ns ap u).2 → isSpawnEvent e = true := by
  induction ns with
  | nil => intro ap u e he; simp [startAgentsLoop] at he
  | cons a rest ih =>
    intro ap u e he
    simp only [startAgentsLoop, List.mem_cons] at he
    rcases he with rfl | rfl | he
    · cases u with
      | none => simp [logStartEvent, isSpawnEvent]
      | some v => cases v <;> simp [logStartEvent, isSpawnEvent]
    · simp [isSpawnEvent]
    · exact ih _ _ _ he

lemma startAgentsLoop_none_no_logUi (ns : List String) :
    ∀ (ap : Nat) (nm : String) (p up : Nat),
      Event.logStartUi nm p up ∉ (startAgentsLoop oa op aa ns ap none).2 := by
  induction ns with
  | nil => intro ap nm p up hm; simp [startAgentsLoop] at hm
  | cons a rest ih =>
    intro ap nm p up hm
    simp only [startAgentsLoop, logStartEvent, List.mem_cons] at hm
    rcases hm with hm | hm | hm
    · exact Event.noConfusion hm
    · exact Event.noConfusion hm
    · exact ih _ nm p up hm

lemma start_agents_trace_kinds (ns : List String) (u : Option Nat) (ap : Nat)
    (e : Event) (he : e ∈ (start_agents ns oa op u aa ap).2) :
    isSpawnEvent e = true := by
  simp only [start_agents, List.mem_append, List.mem_singleton] at he
  rcases he with he | rfl
  · exact startAgentsLoop_trace_kinds oa op aa ns ap u e he
  · simp [isSpawnEvent]

lemma countLaunch_start_agents (ns : List String) (u : Option Nat) (ap : Nat) :
    countLaunch (start_agents ns oa op u aa ap).2 = 0 := by
  rw [countLaunch, List.countP_eq_zero]
  intro e he
  have := start_agents_trace_kinds oa op aa ns u ap e he
  cases e <;> simp_all [isSpawnEvent, isLaunchEv]

lemma countStop_start_agents (ns : List String) (u : Option Nat) (ap : Nat)
    (nm : String) (p : Nat) :
    countStop nm p (start_agents ns oa op u aa ap).2 = 0 := by
  rw [countStop, List.countP_eq_zero]
  intro e he
  have := start_agents_trace_kinds oa op aa ns u ap e he
  cases e <;> simp_all [isSpawnEvent]

lemma join_not_mem_start_agents (ns : List String) (u : Option Nat) (ap : Nat)
    (nm : String) (p : Nat) :
    Event.joinAgent nm p ∉ (start_agents ns oa op u aa ap).2 := by
  intro hmem
  have := start_agents_trace_kinds oa op aa ns u ap _ hmem
  simp [isSpawnEvent] at this

end StartAgentsLemmas

/-- C1 (amended): for every list of agent names of length `n` and base
message port `p`, one call to `start_agents` allocates message ports exactly
`p, p+1, …, p+n-1` in input order — hence strictly increasing and pairwise
distinct — regardless of the UI-port setting; if a positive base UI port `u`
is given, the agents' UI ports are exactly `u, …, u+n-1` in the same order;
if no base UI port is given, no agent receives a UI port. -/
theorem start_agents_port_allocation (names : List String) (oa : String)
    (op : Int) (aa : Option String) (ap : Nat) :
    (∀ u : Option Nat,
      ((start_agents names oa op u aa ap).1.map fun h => h.commPort)
        = (List.range names.length).map (fun i => ap + i))
    ∧ (∀ u : Option Nat,
      List.Pairwise (· < ·)
        ((start_agents names oa op u aa ap).1.map fun h => h.commPort))
    ∧ (∀ u : Nat, u ≠ 0 →
      ((start_agents names oa op (some u) aa ap).1.map fun h => h.uiPort)
        = (List.range names.length).map (fun i => some (u + i)))
    ∧ (((start_agents names oa op none aa ap).1.map fun h => h.uiPort)
        = List.replicate names.length none) := by
  have hports : ∀ u : Option Nat,
      ((start_agents names oa op u aa ap).1.map fun h => h.commPort)
        = (List.range names.length).map (fun i => ap + i) := fun u =>
    startAgentsLoop_map_commPort oa op aa names ap u
  refine ⟨hports, fun u => ?_, fun u hu => ?_, ?_⟩
  · rw [hports u, List.pairwise_map]
    exact (List.pairwise_lt_range names.length).imp
      fun hij => Nat.add_lt_add_left hij ap
  · cases u with
    | zero => exact absurd rfl hu
    | succ v => exact startAgentsLoop_map_uiPort_pos oa op aa names ap v
  · exact startAgentsLoop_map_uiPort_none oa op aa names ap

/-- C1 witness: a concrete launch of two agents with base message port 9001
and base UI port 10001 allocates exactly ports 9001, 9002 and UI ports
10001, 10002, in input order. -/
theorem start_agents_port_allocation_witness :
    ((start_agents ["a1", "a2"] "127.0.0.1" 9000 (some 10001) none 9001).1.map
        fun h => h.uiPort) = [some 10001, some 10002]
    ∧ ((start_agents ["a1", "a2"] "127.0.0.1" 9000 (some 10001) none 9001).1.map
        fun h => h.commPort) = [9001, 9002] := by
  have h := start_agents_port_allocation ["a1", "a2"] "127.0.0.1" 9000 none 9001
  constructor
  · rw [h.2.2.1 10001 (by decide)]; decide
  · rw [h.1 (some 10001)]; decide

/-- C1 counterexample: the claim quantifies over every given base UI port,
but `start_agents` tests `u_port` for Python truthiness, so a given base UI
port of `0` is never incremented: with two agents the second agent's
`ui_port` argument is `0`, not `1` as the claim requires. -/
theorem start_agents_uiport_zero_cex :
    ((start_agents ["a1", "a2"] "127.0.0.1" 9000 (some 0) none 9001).1.map
        fun h => h.uiPort) = [some 0, some 0]
    ∧ decide (((start_agents ["a1", "a2"] "127.0.0.1" 9000 (some 0) none 9001).1.map
        fun h => h.uiPort) = [some 0, some 1]) = false := by
  exact ⟨rfl, by decide⟩

/-- C7: launching a cohort of `n` names produces exactly `n` agent handles,
in the order of the name list, and a `start()` call on each handle is among
the events emitted before `start_agents` returns. -/
theorem start_agents_cohort (names : List String) (oa : String) (op : Int)
    (u : Option Nat) (aa : Option String) (ap : Nat) :
    ((start_agents names oa op u aa ap).1).length = names.length
    ∧ ((start_agents names oa op u aa ap).1.map fun h => h.name) = names
    ∧ ∀ h ∈ (start_agents names oa op u aa ap).1,
        Event.startAgent h.name h.commPort ∈ (start_agents names oa op u aa ap).2 := by
  refine ⟨startAgentsLoop_length oa op aa names ap u,
    startAgentsLoop_map_name oa op aa names ap u, fun h hm => ?_⟩
  simp only [start_agents, List.mem_append]
  exact Or.inl (startAgentsLoop_start_mem oa op aa names ap u h hm)

/-- C7 witness: in a concrete two-agent launch, the second returned handle is
the agent named `a2` on port 9002 and its `start()` call is in the emitted
trace. -/
theorem start_agents_cohort_witness :
    Event.startAgent "a2" 9002
      ∈ (start_agents ["a1", "a2"] "127.0.0.1" 9000 none none 9001).2 := by
  have h := start_agents_cohort ["a1", "a2"] "127.0.0.1" 9000 none none 9001
  have hm : (⟨"a2", none, 9002, "127.0.0.1", 9000, none⟩ : OrchestratedAgent)
      ∈ (start_agents ["a1", "a2"] "127.0.0.1" 9000 none none 9001).1 := by decide
  exact h.2.2 _ hm

/-- C10: a base UI port supplied with value `0` behaves at the public
interface exactly as if no base UI port were given: the emitted trace is
identical (in particular every per-agent log line reports no ui-server),
the observable description of every launched agent is identical, no agent
runs a ui-server, and the UI-port counter is never incremented (every
handle still carries the raw argument `0`). -/
theorem start_agents_uiport_zero_like_none (names : List String) (oa : String)
    (op : Int) (aa : Option String) (ap : Nat) :
    (start_agents names oa op (some 0) aa ap).2
        = (start_agents names oa op none aa ap).2
    ∧ ((start_agents names oa op (some 0) aa ap).1.map obsAgent)
        = ((start_agents names oa op none aa ap).1.map obsAgent)
    ∧ ((start_agents names oa op (some 0) aa ap).1.map fun h => h.uiPort)
        = List.replicate names.length (some 0)
    ∧ ((start_agents names oa op (some 0) aa ap).1.map hasUiServer)
        = List.replicate names.length false
    ∧ ∀ nm p up, Event.logStartUi nm p up ∉ (start_agents names oa op (some 0) aa ap).2 := by
  have hzero : ((start_agents names oa op (some 0) aa ap).1.map fun h => h.uiPort)
      = List.replicate names.length (some 0) :=
    startAgentsLoop_map_uiPort_zero oa op aa names ap
  refine ⟨?_, startAgentsLoop_obs_zero_eq_none oa op aa names ap, hzero, ?_, ?_⟩
  · simp [start_agents, startAgentsLoop_trace_zero_eq_none oa op aa names ap]
  · have hcomp : ((start_agents names oa op (some 0) aa ap).1.map hasUiServer)
        = ((start_agents names oa op (some 0) aa ap).1.map fun h => h.uiPort).map truthy := by
      simp [hasUiServer, List.map_map, Function.comp]
    rw [hcomp, hzero, List.map_replicate]
    rfl
  · intro nm p up hmem
    rw [start_agents] at hmem
    simp only [List.mem_append, List.mem_singleton] at hmem
    rcases hmem with hmem | hmem
    · rw [startAgentsLoop_trace_zero_eq_none oa op aa names ap] at hmem
      exact startAgentsLoop_none_no_logUi oa op aa names ap nm p up hmem
    · exact Event.noConfusion hmem

/-- Python's `str.split` with a one-character separator, on the character
list of the string: every occurrence of `c` splits; an empty input yields
one empty token, exactly as `''.split(':') == ['']`. -/
def splitOnChar (c : Char) : List Char → List (List Char)
  | [] => [[]]
  | x :: xs =>
    match splitOnChar c xs with
    | [] => if x = c then [[], []] else [[x]]
    | y :: ys => if x = c then [] :: y :: ys else (x :: y) :: ys

lemma splitOnChar_no_sep (c : Char) (l : List Char) (h : c ∉ l) :
    splitOnChar c l = [l] := by
  induction l with
  | nil => rfl
  | cons x xs ih =>
    rw [List.mem_cons, not_or] at h
    have hx : ¬ x = c := fun hh => h.1 hh.symm
    rw [splitOnChar, ih h.2]
    simp [hx]

/-- The accumulator loop behind `int()`: consumes decimal digits. -/
def digitsAux : List Char → Nat → Option Nat
  | [], acc => some acc
  | c :: cs, acc =>
    if c.isDigit then digitsAux cs (acc * 10 + (c.toNat - 48)) else none

/-- Python's `int()` on the canonical decimal forms (optional leading minus
sign followed by at least one digit); other inputs raise `ValueError`, here
`none`. -/
def pyInt : List Char → Option Int
  | [] => none
  | '-' :: rest =>
    match rest with
    | [] => none
    | _ => (digitsAux rest 0).map fun n => -(n : Int)
  | l => (digitsAux l 0).map fun n => (n : Int)

/-- The command-line arguments of `pydcop agent` that `runCmd` reads:
`--names`, `--orchestrator`, `--uiport` (optional), `--address` (optional),
`--port`, and the `--restart` flag. -/
structure Args where
  names : List String
  orchestrator : String
  uiport : Option Nat
  address : Option String
  port : Nat
  restart : Bool

/-- The parameters with which the `--restart` supervisory loop launches every
cohort: fixed for the lifetime of `runCmd`. -/
structure LaunchCtx where
  names : List String
  oAddr : String
  oPort : Int
  uPort : Option Nat
  aAddr : Option String
  aPort : Nat
deriving DecidableEq

/-- What `runCmd` does after successfully parsing the orchestrator address:
with `--restart` unset it performs one `start_agents` call, stores the cohort
in the global `agents`, and returns at once (the events are the `launch`
marker plus the `start_agents` log lines — no `join` ever happens); with
`--restart` set it enters the supervisory loop, modelled by the transition
system below starting from `initCore` with these launch parameters. -/
inductive RunOutcome where
  | once (agents : List OrchestratedAgent) (trace : List Event)
  | loopFrom (ctx : LaunchCtx)

/-- Error message for the failed tuple unpacking
`o_addr, o_port = args.orchestrator.split(':')`. -/
def unpackError : String := "ValueError: not enough values to unpack"

/-- Error message for a non-numeric orchestrator port, raised by
`int(o_port)`. -/
def intError : String := "ValueError: invalid literal for int()"

/-- `runCmd(args)`: unpacks `args.orchestrator.split(':')` into exactly two
tokens (a `ValueError` otherwise, before anything else happens), converts the
port with `int()` (in the source this conversion sits inside the
`start_agents` call arguments; it is hoisted before the branch here, which
is observationally equal because it precedes every launch in both branches),
then either launches once (`--restart` unset) or enters the supervisory
loop. -/
def runCmd (args : Args) : Except String RunOutcome :=
  match splitOnChar ':' args.orchestrator.data with
  | [oA, oP] =>
    match pyInt oP with
    | some k =>
      if args.restart then
        Except.ok (RunOutcome.loopFrom
          ⟨args.names, ⟨oA⟩, k, args.uiport, args.address, args.port⟩)
      else
        Except.ok (RunOutcome.once
          (start_agents args.names ⟨oA⟩ k args.uiport args.address args.port).1
          (Event.launch
              (start_agents args.names ⟨oA⟩ k args.uiport args.address args.port).1
            :: (start_agents args.names ⟨oA⟩ k args.uiport args.address args.port).2))
    | none => Except.error intError
  | _ => Except.error unpackError

/-- C8: with the restart flag disabled and a well-formed orchestrator
address, `runCmd` performs exactly one launch, stores the resulting cohort
as the current cohort, and returns immediately: its trace contains exactly
one launch event and no `join()` call on any handle. -/
theorem runCmd_no_restart (args : Args) (oA oP : List Char) (k : Int)
    (hr : args.restart = false)
    (hs : splitOnChar ':' args.orchestrator.data = [oA, oP])
    (hk : pyInt oP = some k) :
    runCmd args = Except.ok (RunOutcome.once
        (start_agents args.names ⟨oA⟩ k args.uiport args.address args.port).1
        (Event.launch
            (start_agents args.names ⟨oA⟩ k args.uiport args.address args.port).1
          :: (start_agents args.names ⟨oA⟩ k args.uiport args.address args.port).2))
    ∧ countLaunch (Event.launch
            (start_agents args.names ⟨oA⟩ k args.uiport args.address args.port).1
          :: (start_agents args.names ⟨oA⟩ k args.uiport args.address args.port).2) = 1
    ∧ ∀ nm p, Event.joinAgent nm p
        ∉ (Event.launch
            (start_agents args.names ⟨oA⟩ k args.uiport args.address args.port).1
          :: (start_agents args.names ⟨oA⟩ k args.uiport args.address args.port).2) := by
  refine ⟨?_, ?_, ?_⟩
  · rw [runCmd, hs]
    simp [hk, hr]
  · rw [countLaunch, List.countP_cons]
    have h0 := countLaunch_start_agents ⟨oA⟩ k args.address args.names
      args.uiport args.port
    rw [countLaunch] at h0
    rw [h0]
    simp [isLaunchEv]
  · intro nm p hmem
    rcases List.mem_cons.mp hmem with hmem | hmem
    · exact Event.noConfusion hmem
    · exact join_not_mem_start_agents ⟨oA⟩ k args.address args.names
        args.uiport args.port nm p hmem

/-- C8 witness: a concrete single-agent invocation without `--restart`
returns the launched cohort at once, with one launch event and no joins. -/
theorem runCmd_no_restart_witness :
    runCmd ⟨["a1"], "127.0.0.1:9000", none, none, 9001, false⟩
      = Except.ok (RunOutcome.once
          (start_agents ["a1"] "127.0.0.1" 9000 none none 9001).1
          (Event.launch (start_agents ["a1"] "127.0.0.1" 9000 none none 9001).1
            :: (start_agents ["a1"] "127.0.0.1" 9000 none none 9001).2))
    ∧ Event.joinAgent "a1" 9001
        ∉ (Event.launch (start_agents ["a1"] "127.0.0.1" 9000 none none 9001).1
            :: (start_agents ["a1"] "127.0.0.1" 9000 none none 9001).2) := by
  have h := runCmd_no_restart ⟨["a1"], "127.0.0.1:9000", none, none, 9001, false⟩
    "127.0.0.1".data "9000".data 9000 rfl (by decide) (by decide)
  exact ⟨h.1, h.2.2 "a1" 9001⟩

/-- C9: if the orchestrator address token has no `:` separator, `runCmd`
fails immediately and synchronously with the unpacking error — no endpoint
is allocated, no agent handle is constructed or started, no outcome (partial
or otherwise) is produced. -/
theorem runCmd_malformed_address (args : Args)
    (h : (':' : Char) ∉ args.orchestrator.data) :
    runCmd args = Except.error unpackError
    ∧ ∀ o, runCmd args ≠ Except.ok o := by
  have hs := splitOnChar_no_sep ':' args.orchestrator.data h
  have herr : runCmd args = Except.error unpackError := by
    rw [runCmd, hs]
  exact ⟨herr, fun o ho => by rw [herr] at ho; exact Except.noConfusion ho⟩

/-- C9 witness: a concrete address with the `:` missing makes `runCmd` fail
with the unpacking error. -/
theorem runCmd_malformed_address_witness :
    runCmd ⟨["a1"], "127.0.0.1", none, none, 9001, false⟩
      = Except.error unpackError := by
  exact (runCmd_malformed_address ⟨["a1"], "127.0.0.1", none, none, 9001, false⟩
    (by decide)).1

/-- The cohort returned by the `start_agents` call of one loop iteration:
the launch parameters are fixed, so every iteration returns this list. -/
def cohortOf (ctx : LaunchCtx) : List OrchestratedAgent :=
  (start_agents ctx.names ctx.oAddr ctx.oPort ctx.uPort ctx.aAddr ctx.aPort).1

/-- The events emitted by the `start_agents` call of one loop iteration. -/
def launchEvs (ctx : LaunchCtx) : List Event :=
  (start_agents ctx.names ctx.oAddr ctx.oPort ctx.uPort ctx.aAddr ctx.aPort).2

/-- Position of the supervisory thread inside the `while not force_stopped:`
loop of `runCmd`, cut at the statement boundaries where a signal handler may
run: about to evaluate the `while` condition (`check`); condition passed,
about to call `start_agents` and assign the global (`launching`); inside the
`for agent in agents: agent.join()` loop with the listed handles still to
join (`joining`); about to evaluate `if force_stopped: break` (`afterJoins`);
about to `sleep(10)` (`cooldown`); returned from the loop (`done`). -/
inductive PC where
  | check
  | launching
  | joining (rest : List OrchestratedAgent)
  | afterJoins
  | cooldown
  | done
deriving DecidableEq

/-- The process-wide state shared by the supervisory loop and the signal
handler: the module-level `force_stopped` flag and `agents` list, plus the
supervisory thread's position in the loop. -/
structure Core where
  force_stopped : Bool
  agents : List OrchestratedAgent
  pc : PC
deriving DecidableEq

/-- `on_force_exit`: prints `FORCE EXIT`, sets `force_stopped = True`, and
calls `stop()` on every handle currently in the global `agents` list. It
never touches the loop position or the `agents` list itself. -/
def on_force_exit (c : Core) : Core × List Event :=
  ({ c with force_stopped := true },
   Event.printForceExit :: c.agents.map fun h => Event.stopAgent h.name h.commPort)

/-- One statement-level step of the supervisory loop of `runCmd` with
`--restart` set. `none` means the loop has returned and the supervisory
thread takes no further step. The `launching` step performs
`agents = start_agents(...)` atomically with respect to the globals: the
global list is rebound only once `start_agents` has returned. -/
def runStep (ctx : LaunchCtx) (c : Core) : Option (Core × List Event) :=
  match c.pc with
  | PC.check =>
    if c.force_stopped then some ({ c with pc := PC.done }, [])
    else some ({ c with pc := PC.launching }, [])
  | PC.launching =>
    some ({ c with agents := cohortOf ctx, pc := PC.joining (cohortOf ctx) },
      Event.launch (cohortOf ctx) :: launchEvs ctx)
  | PC.joining [] =>
    some ({ c with pc := PC.afterJoins }, [Event.logAllStopped])
  | PC.joining (h :: rest) =>
    some ({ c with pc := PC.joining rest }, [Event.joinAgent h.name h.commPort])
  | PC.afterJoins =>
    if c.force_stopped then some ({ c with pc := PC.done }, [])
    else some ({ c with pc := PC.cooldown }, [Event.logWaitRestart])
  | PC.cooldown =>
    some ({ c with pc := PC.check }, [Event.sleepFor 10])
  | PC.done => none

/-- Scheduling labels: a step of the supervisory thread, or an asynchronous
invocation of the `on_force_exit` signal handler. -/
inductive Label where
  | sup
  | force
deriving DecidableEq

/-- One labelled step. The handler is enabled at any time. -/
def execStep (ctx : LaunchCtx) : Label → Core → Option (Core × List Event)
  | Label.sup, c => runStep ctx c
  | Label.force, c => some (on_force_exit c)

/-- Execution of a schedule: runs the labelled steps in order from a state,
collecting the emitted events; `none` if the schedule asks the supervisory
thread to step after its loop has returned. -/
def exec (ctx : LaunchCtx) : Core → List Label → Option (Core × List Event)
  | c, [] => some (c, [])
  | c, l :: ls =>
    match execStep ctx l c with
    | none => none
    | some r =>
      match exec ctx r.1 ls with
      | none => none
      | some r2 => some (r2.1, r.2 ++ r2.2)

/-- The process-wide state at interpreter start: `force_stopped = False`,
`agents = []`, supervisory thread about to test the loop condition. -/
def initCore : Core := ⟨false, [], PC.check⟩

/-- How many launches can still happen once `force_stopped` is set: one if
the supervisory thread already passed the `while` check and sits right
before the `start_agents` call, none otherwise. -/
def launchAllowance : PC → Nat
  | PC.launching => 1
  | _ => 0

/-- Number of `FORCE EXIT` notices in a trace. -/
def countForceExit (t : List Event) : Nat :=
  t.countP fun e => decide (e = Event.printForceExit)

/-- A concrete single-agent launch context used by witnesses and
counterexamples. -/
def ctx0 : LaunchCtx := ⟨["a1"], "127.0.0.1", 9000, none, none, 9001⟩

section ExecLemmas

lemma countLaunch_append (a b : List Event) :
    countLaunch (a ++ b) = countLaunch a + countLaunch b :=
  List.countP_append _ _ _

lemma countLaunch_launchEvs (ctx : LaunchCtx) : countLaunch (launchEvs ctx) = 0 :=
  countLaunch_start_agents ctx.oAddr ctx.oPort ctx.aAddr ctx.names ctx.uPort ctx.aPort

lemma countLaunch_force (c : Core) : countLaunch (on_force_exit c).2 = 0 := by
  rw [on_force_exit, countLaunch, List.countP_cons, List.countP_eq_zero.mpr]
  · simp [isLaunchEv]
  · intro e he
    obtain ⟨h, _, rfl⟩ := List.mem_map.mp he
    simp [isLaunchEv]

lemma runStep_flag (ctx : LaunchCtx) (c : Core) (r : Core × List Event)
    (h : runStep ctx c = some r) : r.1.force_stopped = c.force_stopped := by
  unfold runStep at h
  split at h <;> try split at h
  all_goals first
    | exact Option.noConfusion h
    | (injection h with h2; rw [← h2])

lemma exec_cons (ctx : LaunchCtx) (l : Label) (c : Core) (ls : List Label)
    (r : Core × List Event) (h : exec ctx c (l :: ls) = some r) :
    ∃ r1 r2, execStep ctx l c = some r1 ∧ exec ctx r1.1 ls = some r2
      ∧ r = (r2.1, r1.2 ++ r2.2) := by
  simp only [exec] at h
  split at h
  · exact Option.noConfusion h
  · rename_i r1 hstep
    split at h
    · exact Option.noConfusion h
    · rename_i r2 hrest
      simp only [Option.some.injEq] at h
      exact ⟨r1, r2, hstep, hrest, h.symm⟩

lemma exec_append_some (ctx : LaunchCtx) :
    ∀ (l1 l2 : List Label) (c : Core) (r1 r2 : Core × List Event),
      exec ctx c l1 = some r1 → exec ctx r1.1 l2 = some r2 →
      exec ctx c (l1 ++ l2) = some (r2.1, r1.2 ++ r2.2) := by
  intro l1
  induction l1 with
  | nil =>
    intro l2 c r1 r2 h1 h2
    simp only [exec, Option.some.injEq] at h1
    subst h1
    rw [List.nil_append]
    exact h2
  | cons l ls ih =>
    intro l2 c r1 r2 h1 h2
    obtain ⟨s1, s2, hstep, hrest, hr⟩ := exec_cons ctx l c ls r1 h1
    subst hr
    have h3 := ih l2 s1.1 s2 r2 hrest h2
    rw [List.cons_append]
    simp only [exec, hstep, h3, List.append_assoc]

lemma exec_split (ctx : LaunchCtx) :
    ∀ (l1 l2 : List Label) (c : Core) (r : Core × List Event),
      exec ctx c (l1 ++ l2) = some r →
      ∃ r1 r2, exec ctx c l1 = some r1 ∧ exec ctx r1.1 l2 = some r2
        ∧ r = (r2.1, r1.2 ++ r2.2) := by
  intro l1
  induction l1 with
  | nil =>
    intro l2 c r h
    exact ⟨(c, []), r, rfl, h, by rw [List.nil_append]⟩
  | cons l ls ih =>
    intro l2 c r h
    rw [List.cons_append] at h
    obtain ⟨s1, s2, hstep, hrest, hr⟩ := exec_cons ctx l c (ls ++ l2) r h
    obtain ⟨t1, t2, ht1, ht2, ht⟩ := ih l2 s1.1 s2 hrest
    refine ⟨(t1.1, s1.2 ++ t1.2), t2, ?_, ht2, ?_⟩
    · simp only [exec, hstep, ht1]
    · rw [hr, ht]
      simp [List.append_assoc]

lemma exec_flag_mono (ctx : LaunchCtx) :
    ∀ (ls : List Label) (c : Core) (r : Core × List Event),
      c.force_stopped = true → exec ctx c ls = some r → r.1.force_stopped = true := by
  intro ls
  induction ls with
  | nil =>
    intro c r hf h
    simp only [exec, Option.some.injEq] at h
    rw [← h]
    exact hf
  | cons l ls ih =>
    intro c r hf h
    obtain ⟨r1, r2, hstep, hrest, hr⟩ := exec_cons ctx l c ls r h
    subst hr
    cases l with
    | sup =>
      have hflag : r1.1.force_stopped = c.force_stopped :=
        runStep_flag ctx c r1 hstep
      exact ih r1.1 r2 (hflag.trans hf) hrest
    | force =>
      have hr1 : r1 = on_force_exit c := by
        simpa [execStep, eq_comm] using hstep
      subst hr1
      exact ih _ r2 rfl hrest

lemma countLaunch_nil : countLaunch ([] : List Event) = 0 :=
  List.countP_nil _

lemma countLaunch_cons (e : Event) (t : List Event) :
    countLaunch (e :: t) = countLaunch t + (if isLaunchEv e then 1 else 0) :=
  List.countP_cons _ _ _

lemma runStep_check (ctx : LaunchCtx) (f : Bool) (ag : List OrchestratedAgent) :
    runStep ctx ⟨f, ag, PC.check⟩
      = if f then some (⟨f, ag, PC.done⟩, [])
        else some (⟨f, ag, PC.launching⟩, []) := rfl

lemma runStep_launching (ctx : LaunchCtx) (f : Bool) (ag : List OrchestratedAgent) :
    runStep ctx ⟨f, ag, PC.launching⟩
      = some (⟨f, cohortOf ctx, PC.joining (cohortOf ctx)⟩,
          Event.launch (cohortOf ctx) :: launchEvs ctx) := rfl

lemma runStep_joinNil (ctx : LaunchCtx) (f : Bool) (ag : List OrchestratedAgent) :
    runStep ctx ⟨f, ag, PC.joining []⟩
      = some (⟨f, ag, PC.afterJoins⟩, [Event.logAllStopped]) := rfl

lemma runStep_joinCons (ctx : LaunchCtx) (f : Bool) (ag : List OrchestratedAgent)
    (hh : OrchestratedAgent) (tt : List OrchestratedAgent) :
    runStep ctx ⟨f, ag, PC.joining (hh :: tt)⟩
      = some (⟨f, ag, PC.joining tt⟩, [Event.joinAgent hh.name hh.commPort]) := rfl

lemma runStep_afterJoins (ctx : LaunchCtx) (f : Bool) (ag : List OrchestratedAgent) :
    runStep ctx ⟨f, ag, PC.afterJoins⟩
      = if f then some (⟨f, ag, PC.done⟩, [])
        else some (⟨f, ag, PC.cooldown⟩, [Event.logWaitRestart]) := rfl

lemma runStep_cooldown (ctx : LaunchCtx) (f : Bool) (ag : List OrchestratedAgent) :
    runStep ctx ⟨f, ag, PC.cooldown⟩
      = some (⟨f, ag, PC.check⟩, [Event.sleepFor 10]) := rfl

lemma runStep_done (ctx : LaunchCtx) (f : Bool) (ag : List OrchestratedAgent) :
    runStep ctx ⟨f, ag, PC.done⟩ = none := rfl

lemma runStep_bound (ctx : LaunchCtx) (c : Core) (r1 : Core × List Event)
    (hf : c.force_stopped = true) (h : runStep ctx c = some r1) :
    r1.1.force_stopped = true
    ∧ countLaunch r1.2 + launchAllowance r1.1.pc ≤ launchAllowance c.pc := by
  obtain ⟨f, ag, pcv⟩ := c
  have hf2 : f = true := hf
  subst hf2
  cases pcv with
  | check =>
    rw [runStep_check, if_pos rfl] at h
    injection h with h2
    rw [← h2]
    exact ⟨rfl, by simp [countLaunch_nil, launchAllowance]⟩
  | launching =>
    rw [runStep_launching] at h
    injection h with h2
    rw [← h2]
    refine ⟨rfl, ?_⟩
    rw [countLaunch_cons, countLaunch_launchEvs]
    simp [isLaunchEv, launchAllowance]
  | joining rest =>
    cases rest with
    | nil =>
      rw [runStep_joinNil] at h
      injection h with h2
      rw [← h2]
      refine ⟨rfl, ?_⟩
      rw [countLaunch_cons, countLaunch_nil]
      simp [isLaunchEv, launchAllowance]
    | cons hh tt =>
      rw [runStep_joinCons] at h
      injection h with h2
      rw [← h2]
      refine ⟨rfl, ?_⟩
      rw [countLaunch_cons, countLaunch_nil]
      simp [isLaunchEv, launchAllowance]
  | afterJoins =>
    rw [runStep_afterJoins, if_pos rfl] at h
    injection h with h2
    rw [← h2]
    exact ⟨rfl, by simp [countLaunch_nil, launchAllowance]⟩
  | cooldown =>
    rw [runStep_cooldown] at h
    injection h with h2
    rw [← h2]
    refine ⟨rfl, ?_⟩
    rw [countLaunch_cons, countLaunch_nil]
    simp [isLaunchEv, launchAllowance]
  | done =>
    rw [runStep_done] at h
    exact Option.noConfusion h

lemma stopped_launch_bound (ctx : LaunchCtx) :
    ∀ (ls : List Label) (c : Core) (r : Core × List Event),
      c.force_stopped = true → exec ctx c ls = some r →
      countLaunch r.2 ≤ launchAllowance c.pc := by
  intro ls
  induction ls with
  | nil =>
    intro c r hf h
    simp only [exec, Option.some.injEq] at h
    rw [← h]
    simp [countLaunch]
  | cons l ls ih =>
    intro c r hf h
    obtain ⟨r1, r2, hstep, hrest, hr⟩ := exec_cons ctx l c ls r h
    subst hr
    rw [countLaunch_append]
    cases l with
    | force =>
      have hr1 : r1 = on_force_exit c := by
        simpa [execStep, eq_comm] using hstep
      have hflag : r1.1.force_stopped = true := by rw [hr1]; rfl
      have hpc2 : r1.1.pc = c.pc := by rw [hr1]; rfl
      have hcount : countLaunch r1.2 = 0 := by rw [hr1]; exact countLaunch_force c
      have hb2 := ih r1.1 r2 hflag hrest
      rw [hpc2] at hb2
      omega
    | sup =>
      simp only [execStep] at hstep
      have hb1 := runStep_bound ctx c r1 hf hstep
      have hb2 := ih r1.1 r2 hb1.1 hrest
      have := hb1.2
      omega

lemma countForceExit_stops (l : List OrchestratedAgent) :
    countForceExit (l.map fun h => Event.stopAgent h.name h.commPort) = 0 := by
  rw [countForceExit, List.countP_eq_zero]
  intro e he
  obtain ⟨x, _, rfl⟩ := List.mem_map.mp he
  simp

lemma countForceExit_force (c : Core) : countForceExit (on_force_exit c).2 = 1 := by
  show countForceExit (Event.printForceExit
    :: (c.agents.map fun h => Event.stopAgent h.name h.commPort)) = 1
  rw [countForceExit, List.countP_cons]
  have h0 := countForceExit_stops c.agents
  rw [countForceExit] at h0
  rw [h0]
  simp

end ExecLemmas

/-- C6: the process-wide `force_stopped` flag starts `false` at process
start and is monotonic: no operation of the core — the launch step, the
join loop, the loop-boundary checks, the cooldown, or `on_force_exit`
itself — ever transitions it from `true` back to `false` in any execution. -/
theorem force_stopped_monotonic :
    initCore.force_stopped = false
    ∧ ∀ (ctx : LaunchCtx) (c : Core) (ls : List Label) (r : Core × List Event),
        c.force_stopped = true → exec ctx c ls = some r →
        r.1.force_stopped = true :=
  ⟨rfl, fun ctx c ls r hf h => exec_flag_mono ctx ls c r hf h⟩

/-- C6 witness: a concrete run from a flagged state keeps the flag set. -/
theorem force_stopped_monotonic_witness :
    initCore.force_stopped = false
    ∧ ((⟨true, [], PC.done⟩ : Core), ([] : List Event)).1.force_stopped = true := by
  refine ⟨force_stopped_monotonic.1, ?_⟩
  exact force_stopped_monotonic.2 ctx0 ⟨true, [], PC.check⟩ [Label.sup]
    ((⟨true, [], PC.done⟩ : Core), ([] : List Event)) rfl (by decide)

/-- C5: `on_force_exit` is idempotent: a second invocation leaves the shared
state exactly as after the first — so it cannot raise, the `force_stopped`
flag stays `true` (it is never un-set), and every continuation of the
process behaves identically after one or two invocations, in particular no
additional cohort launch can occur — while each invocation prints exactly
one `FORCE EXIT` notice and re-issues `stop()` to every handle of the
current cohort. -/
theorem on_force_exit_idempotent (ctx : LaunchCtx) (c : Core) (ls : List Label) :
    (on_force_exit (on_force_exit c).1).1 = (on_force_exit c).1
    ∧ (on_force_exit c).1.force_stopped = true
    ∧ (on_force_exit (on_force_exit c).1).1.force_stopped = true
    ∧ (on_force_exit (on_force_exit c).1).2
        = Event.printForceExit
            :: (on_force_exit c).1.agents.map (fun h => Event.stopAgent h.name h.commPort)
    ∧ countForceExit (on_force_exit c).2 = 1
    ∧ countForceExit (on_force_exit (on_force_exit c).1).2 = 1
    ∧ exec ctx (on_force_exit (on_force_exit c).1).1 ls
        = exec ctx (on_force_exit c).1 ls :=
  ⟨rfl, rfl, rfl, rfl, countForceExit_force c,
    countForceExit_force (on_force_exit c).1, rfl⟩

/-- C2 (amended): an `on_force_exit` invocation delivers one `stop()` call
to every agent handle present in the current cohort at that instant; after
the invocation, at most one further cohort launch can occur, namely when
the supervisor had already passed its `while not force_stopped` check and
was sitting right before the `start_agents` call (`launchAllowance` is `1`
exactly there); from every other position no subsequent cohort is ever
launched. -/
theorem force_exit_stops_cohort_and_launch_bound (ctx : LaunchCtx) (c : Core)
    (ls : List Label) (r : Core × List Event)
    (hexec : exec ctx (on_force_exit c).1 ls = some r) :
    (on_force_exit c).2
        = Event.printForceExit
            :: c.agents.map (fun h => Event.stopAgent h.name h.commPort)
    ∧ countLaunch r.2 ≤ launchAllowance c.pc :=
  ⟨rfl, stopped_launch_bound ctx ls (on_force_exit c).1 r rfl hexec⟩

/-- C2 witness: force-stopping a quiescent single-agent supervisor at the
loop check emits the notice, and the subsequent supervisor step launches
nothing (`launchAllowance PC.check = 0`). -/
theorem force_exit_stops_cohort_and_launch_bound_witness :
    (on_force_exit (⟨false, [], PC.check⟩ : Core)).2 = [Event.printForceExit]
    ∧ countLaunch ((⟨true, [], PC.done⟩ : Core), ([] : List Event)).2
        ≤ launchAllowance PC.check := by
  have h := force_exit_stops_cohort_and_launch_bound ctx0 ⟨false, [], PC.check⟩
    [Label.sup] (⟨true, [], PC.done⟩, ([] : List Event)) (by decide)
  exact ⟨h.1, h.2⟩

/-- C2 counterexample: the claim as stated — once force-stop has set the
flag, no cohort is ever launched afterwards — fails on the code: a signal
arriving between the `while not force_stopped` check and the
`start_agents(...)` call sets the flag and stops the (empty) current
cohort, yet the already-committed `start_agents` call still runs and
launches a full cohort after the `FORCE EXIT` notice. -/
theorem force_exit_launch_race_cex :
    exec ctx0 initCore [Label.sup, Label.force, Label.sup]
      = some (⟨true, cohortOf ctx0, PC.joining (cohortOf ctx0)⟩,
          Event.printForceExit :: Event.launch (cohortOf ctx0) :: launchEvs ctx0)
    ∧ countLaunch (Event.launch (cohortOf ctx0) :: launchEvs ctx0) = 1 :=
  ⟨by decide, by decide⟩

/-- C10 witness: a concrete single-agent launch with base UI port `0` emits
the same trace as a launch with no UI port and no ui-server log line. -/
theorem start_agents_uiport_zero_like_none_witness :
    (start_agents ["a1"] "127.0.0.1" 9000 (some 0) none 9001).2
        = (start_agents ["a1"] "127.0.0.1" 9000 none none 9001).2
    ∧ Event.logStartUi "a1" 9001 10001
        ∉ (start_agents ["a1"] "127.0.0.1" 9000 (some 0) none 9001).2 := by
  have h := start_agents_uiport_zero_like_none ["a1"] "127.0.0.1" 9000 none 9001
  exact ⟨h.1, h.2.2.2.2 "a1" 9001 10001⟩

/-- The `join()` calls of one loop iteration, in cohort order. -/
def joinEvsOf (ctx : LaunchCtx) : List Event :=
  (cohortOf ctx).map fun h => Event.joinAgent h.name h.commPort

/-- The events of one full iteration of the restart loop when force-stop is
never invoked: the `start_agents` call (launch marker plus its log lines),
a `join()` on every handle of the cohort just launched, the
`All agents have stopped` and `Wait before restarting` log lines, and the
fixed `sleep(10)` cooldown. -/
def cycleEvents (ctx : LaunchCtx) : List Event :=
  Event.launch (cohortOf ctx)
    :: (launchEvs ctx ++ joinEvsOf ctx
      ++ [Event.logAllStopped, Event.logWaitRestart, Event.sleepFor 10])

section CycleLemmas

lemma exec_cons_some (ctx : LaunchCtx) (l : Label) (ls : List Label) (c : Core)
    (r1 r2 : Core × List Event) (h1 : execStep ctx l c = some r1)
    (h2 : exec ctx r1.1 ls = some r2) :
    exec ctx c (l :: ls) = some (r2.1, r1.2 ++ r2.2) := by
  simp only [exec, h1, h2]

lemma exec_joining (ctx : LaunchCtx) :
    ∀ (rest : List OrchestratedAgent) (b : Bool) (ag : List OrchestratedAgent),
      exec ctx ⟨b, ag, PC.joining rest⟩ (List.replicate (rest.length + 1) Label.sup)
        = some (⟨b, ag, PC.afterJoins⟩,
            (rest.map fun h => Event.joinAgent h.name h.commPort)
              ++ [Event.logAllStopped]) := by
  intro rest
  induction rest with
  | nil =>
    intro b ag
    show exec ctx ⟨b, ag, PC.joining []⟩ [Label.sup] = _
    simp [exec, execStep, runStep_joinNil]
  | cons hh tt ih =>
    intro b ag
    have hrep : List.replicate ((hh :: tt).length + 1) Label.sup
        = Label.sup :: List.replicate (tt.length + 1) Label.sup := by
      simp [List.replicate_succ]
    rw [hrep]
    rw [exec_cons_some ctx Label.sup (List.replicate (tt.length + 1) Label.sup)
      ⟨b, ag, PC.joining (hh :: tt)⟩
      (⟨b, ag, PC.joining tt⟩, [Event.joinAgent hh.name hh.commPort])
      (⟨b, ag, PC.afterJoins⟩,
        (tt.map fun h => Event.joinAgent h.name h.commPort) ++ [Event.logAllStopped])
      (by simp [execStep, runStep_joinCons]) (ih b ag)]
    simp

lemma exec_cycle (ctx : LaunchCtx) (ag : List OrchestratedAgent) :
    exec ctx ⟨false, ag, PC.check⟩
        (List.replicate ((cohortOf ctx).length + 5) Label.sup)
      = some (⟨false, cohortOf ctx, PC.check⟩, cycleEvents ctx) := by
  have hsplit : List.replicate ((cohortOf ctx).length + 5) Label.sup
      = [Label.sup, Label.sup]
          ++ (List.replicate ((cohortOf ctx).length + 1) Label.sup
            ++ [Label.sup, Label.sup]) := by
    rw [show (cohortOf ctx).length + 5 = 2 + (((cohortOf ctx).length + 1) + 2)
        by omega, List.replicate_add, List.replicate_add]
    rfl
  rw [hsplit]
  have h1 : exec ctx ⟨false, ag, PC.check⟩ [Label.sup, Label.sup]
      = some (⟨false, cohortOf ctx, PC.joining (cohortOf ctx)⟩,
          Event.launch (cohortOf ctx) :: launchEvs ctx) := by
    simp [exec, execStep, runStep_check, runStep_launching]
  have h2 := exec_joining ctx (cohortOf ctx) false (cohortOf ctx)
  have h3 : exec ctx ⟨false, cohortOf ctx, PC.afterJoins⟩ [Label.sup, Label.sup]
      = some (⟨false, cohortOf ctx, PC.check⟩,
          [Event.logWaitRestart, Event.sleepFor 10]) := by
    simp [exec, execStep, runStep_afterJoins, runStep_cooldown]
  have h23 := exec_append_some ctx _ _ _ _ _ h2 h3
  have hall := exec_append_some ctx _ _ _ _ _ h1 h23
  rw [hall]
  simp [cycleEvents, joinEvsOf, List.append_assoc]

lemma exec_cycles (ctx : LaunchCtx) :
    ∀ (m : Nat) (ag : List OrchestratedAgent),
      ∃ ag2, exec ctx ⟨false, ag, PC.check⟩
          (List.replicate (m * ((cohortOf ctx).length + 5)) Label.sup)
        = some (⟨false, ag2, PC.check⟩,
            List.flatten (List.replicate m (cycleEvents ctx))) := by
  intro m
  induction m with
  | zero =>
    intro ag
    exact ⟨ag, by simp [exec]⟩
  | succ m ih =>
    intro ag
    obtain ⟨ag2, h2⟩ := ih (cohortOf ctx)
    have h1 := exec_cycle ctx ag
    have hall := exec_append_some ctx _ _ _ _ _ h1 h2
    refine ⟨ag2, ?_⟩
    rw [show (m + 1) * ((cohortOf ctx).length + 5)
        = ((cohortOf ctx).length + 5) + m * ((cohortOf ctx).length + 5) by ring,
      List.replicate_add]
    rw [hall]
    simp [List.replicate_succ]

lemma not_launch_of_spawn {e : Event} (h : isSpawnEvent e = true) :
    isLaunchEv e = false := by
  cases e <;> simp_all [isSpawnEvent, isLaunchEv]

lemma cycle_launch_mem (ctx : LaunchCtx) (e : Event)
    (he : e ∈ cycleEvents ctx) (hl : isLaunchEv e = true) :
    e = Event.launch (cohortOf ctx) := by
  rw [cycleEvents] at he
  rcases List.mem_cons.mp he with rfl | he
  · rfl
  · exfalso
    rcases List.mem_append.mp he with he | he
    · rcases List.mem_append.mp he with he | he
      · rw [launchEvs] at he
        have hs := start_agents_trace_kinds ctx.oAddr ctx.oPort ctx.aAddr
          ctx.names ctx.uPort ctx.aPort e he
        rw [not_launch_of_spawn hs] at hl
        exact Bool.noConfusion hl
      · rw [joinEvsOf] at he
        obtain ⟨x, _, rfl⟩ := List.mem_map.mp he
        simp [isLaunchEv] at hl
    · simp only [List.mem_cons, List.not_mem_nil, or_false] at he
      rcases he with rfl | rfl | rfl <;> simp [isLaunchEv] at hl

lemma countLaunch_joinEvs (ctx : LaunchCtx) : countLaunch (joinEvsOf ctx) = 0 := by
  rw [countLaunch, List.countP_eq_zero]
  intro e he
  rw [joinEvsOf] at he
  obtain ⟨x, _, rfl⟩ := List.mem_map.mp he
  simp [isLaunchEv]

lemma countLaunch_cycle (ctx : LaunchCtx) : countLaunch (cycleEvents ctx) = 1 := by
  rw [cycleEvents, countLaunch_cons, countLaunch_append, countLaunch_append,
    countLaunch_launchEvs, countLaunch_joinEvs]
  simp [countLaunch, List.countP_cons, List.countP_nil, isLaunchEv]

lemma filter_eq_replicate_countP {α : Type} (p : α → Bool) (a : α) :
    ∀ (l : List α), (∀ x ∈ l, p x = true → x = a) →
      l.filter p = List.replicate (l.countP p) a := by
  intro l
  induction l with
  | nil => intro _; rfl
  | cons x xs ih =>
    intro h
    have ih2 := ih (fun y hy hp => h y (List.mem_cons_of_mem x hy) hp)
    cases hx : p x with
    | false => simp [List.filter_cons, List.countP_cons, hx, ih2]
    | true =>
      have hxa : x = a := h x (List.mem_cons_self x xs) hx
      subst hxa
      simp [List.filter_cons, List.countP_cons, hx, ih2, List.replicate_succ]

end CycleLemmas

/-- C3: with restart enabled and force-stop never invoked (a schedule made
of supervisor steps only), the execution from process start is the
deterministic repetition of one loop iteration: the emitted trace is always
a left-slice of `K` copies of `cycleEvents` — launch, the `start_agents`
log lines, one `join()` per handle of that same cohort, the two log lines,
and the `sleep(10)` cooldown — so a new cohort is launched only after every
`join()` of the previous cohort has returned and the cooldown has elapsed
(each cycle contains exactly one launch), and every launch carries the same
cohort `cohortOf ctx` (same names, same base, identical port assignment). -/
theorem restart_loop_periodic (ctx : LaunchCtx) (k : Nat) :
    ∃ (c : Core) (evs rest : List Event) (K : Nat),
      exec ctx initCore (List.replicate k Label.sup) = some (c, evs)
      ∧ evs ++ rest = List.flatten (List.replicate K (cycleEvents ctx))
      ∧ countLaunch (cycleEvents ctx) = 1
      ∧ evs.filter isLaunchEv
          = List.replicate (countLaunch evs) (Event.launch (cohortOf ctx)) := by
  obtain ⟨ag2, hfull⟩ := exec_cycles ctx k []
  have hk : k * ((cohortOf ctx).length + 5)
      = k + (k * ((cohortOf ctx).length + 5) - k) := by
    have h1 : k ≤ k * ((cohortOf ctx).length + 5) :=
      Nat.le_mul_of_pos_right k (by omega)
    omega
  rw [hk, List.replicate_add] at hfull
  obtain ⟨r1, r2, hexec1, hexec2, hr⟩ := exec_split ctx _ _ _ _ hfull
  have hprefix : r1.2 ++ r2.2 = List.flatten (List.replicate k (cycleEvents ctx)) :=
    (congrArg Prod.snd hr).symm
  have hmem : ∀ e ∈ r1.2, isLaunchEv e = true → e = Event.launch (cohortOf ctx) := by
    intro e he hl
    have he2 : e ∈ List.flatten (List.replicate k (cycleEvents ctx)) := by
      rw [← hprefix]
      exact List.mem_append_left _ he
    obtain ⟨l, hlmem, hel⟩ := List.mem_flatten.mp he2
    have hl2 : l = cycleEvents ctx := List.eq_of_mem_replicate hlmem
    subst hl2
    exact cycle_launch_mem ctx e hel hl
  refine ⟨r1.1, r1.2, r2.2, k, ?_, hprefix, countLaunch_cycle ctx, ?_⟩
  · rw [show initCore = (⟨false, [], PC.check⟩ : Core) from rfl, hexec1]
  · exact filter_eq_replicate_countP isLaunchEv (Event.launch (cohortOf ctx)) r1.2 hmem

section StopCountLemmas

lemma countStop_append (nm : String) (p : Nat) (a b : List Event) :
    countStop nm p (a ++ b) = countStop nm p a + countStop nm p b :=
  List.countP_append _ _ _

lemma countStop_launchEvs (ctx : LaunchCtx) (nm : String) (p : Nat) :
    countStop nm p (launchEvs ctx) = 0 :=
  countStop_start_agents ctx.oAddr ctx.oPort ctx.aAddr ctx.names ctx.uPort
    ctx.aPort nm p

lemma runStep_no_stops (ctx : LaunchCtx) (c : Core) (r1 : Core × List Event)
    (h : runStep ctx c = some r1) (nm : String) (p : Nat) :
    countStop nm p r1.2 = 0 := by
  obtain ⟨f, ag, pcv⟩ := c
  cases pcv with
  | check =>
    cases f with
    | false =>
      rw [runStep_check, if_neg Bool.false_ne_true] at h
      injection h with h2
      rw [← h2]
      exact List.countP_nil _
    | true =>
      rw [runStep_check, if_pos rfl] at h
      injection h with h2
      rw [← h2]
      exact List.countP_nil _
  | launching =>
    rw [runStep_launching] at h
    injection h with h2
    rw [← h2]
    show countStop nm p (Event.launch (cohortOf ctx) :: launchEvs ctx) = 0
    rw [countStop, List.countP_cons]
    have h0 := countStop_launchEvs ctx nm p
    rw [countStop] at h0
    rw [h0]
    simp
  | joining rest =>
    cases rest with
    | nil =>
      rw [runStep_joinNil] at h
      injection h with h2
      rw [← h2]
      simp [countStop, List.countP_cons, List.countP_nil]
    | cons hh tt =>
      rw [runStep_joinCons] at h
      injection h with h2
      rw [← h2]
      simp [countStop, List.countP_cons, List.countP_nil]
  | afterJoins =>
    cases f with
    | false =>
      rw [runStep_afterJoins, if_neg Bool.false_ne_true] at h
      injection h with h2
      rw [← h2]
      simp [countStop, List.countP_cons, List.countP_nil]
    | true =>
      rw [runStep_afterJoins, if_pos rfl] at h
      injection h with h2
      rw [← h2]
      exact List.countP_nil _
  | cooldown =>
    rw [runStep_cooldown] at h
    injection h with h2
    rw [← h2]
    simp [countStop, List.countP_cons, List.countP_nil]
  | done =>
    rw [runStep_done] at h
    exact Option.noConfusion h

lemma exec_noforce_no_stops (ctx : LaunchCtx) (nm : String) (p : Nat) :
    ∀ (ls : List Label) (c : Core) (r : Core × List Event),
      Label.force ∉ ls → exec ctx c ls = some r → countStop nm p r.2 = 0 := by
  intro ls
  induction ls with
  | nil =>
    intro c r _ h
    simp only [exec, Option.some.injEq] at h
    rw [← h]
    exact List.countP_nil _
  | cons l ls ih =>
    intro c r hnf h
    obtain ⟨r1, r2, hstep, hrest, hr⟩ := exec_cons ctx l c ls r h
    subst hr
    rw [List.mem_cons, not_or] at hnf
    cases l with
    | force => exact absurd rfl hnf.1
    | sup =>
      simp only [execStep] at hstep
      rw [countStop_append, runStep_no_stops ctx c r1 hstep nm p,
        ih r1.1 r2 hnf.2 hrest]

lemma runStep_agents (ctx : LaunchCtx) (c : Core) (r1 : Core × List Event)
    (h : runStep ctx c = some r1) :
    r1.1.agents = c.agents ∨ r1.1.agents = cohortOf ctx := by
  obtain ⟨f, ag, pcv⟩ := c
  cases pcv with
  | check =>
    cases f with
    | false =>
      rw [runStep_check, if_neg Bool.false_ne_true] at h
      injection h with h2
      rw [← h2]
      exact Or.inl rfl
    | true =>
      rw [runStep_check, if_pos rfl] at h
      injection h with h2
      rw [← h2]
      exact Or.inl rfl
  | launching =>
    rw [runStep_launching] at h
    injection h with h2
    rw [← h2]
    exact Or.inr rfl
  | joining rest =>
    cases rest with
    | nil =>
      rw [runStep_joinNil] at h
      injection h with h2
      rw [← h2]
      exact Or.inl rfl
    | cons hh tt =>
      rw [runStep_joinCons] at h
      injection h with h2
      rw [← h2]
      exact Or.inl rfl
  | afterJoins =>
    cases f with
    | false =>
      rw [runStep_afterJoins, if_neg Bool.false_ne_true] at h
      injection h with h2
      rw [← h2]
      exact Or.inl rfl
    | true =>
      rw [runStep_afterJoins, if_pos rfl] at h
      injection h with h2
      rw [← h2]
      exact Or.inl rfl
  | cooldown =>
    rw [runStep_cooldown] at h
    injection h with h2
    rw [← h2]
    exact Or.inl rfl
  | done =>
    rw [runStep_done] at h
    exact Option.noConfusion h

lemma exec_agents_inv (ctx : LaunchCtx) :
    ∀ (ls : List Label) (c : Core) (r : Core × List Event),
      (c.agents = [] ∨ c.agents = cohortOf ctx) → exec ctx c ls = some r →
      (r.1.agents = [] ∨ r.1.agents = cohortOf ctx) := by
  intro ls
  induction ls with
  | nil =>
    intro c r hc h
    simp only [exec, Option.some.injEq] at h
    rw [← h]
    exact hc
  | cons l ls ih =>
    intro c r hc h
    obtain ⟨r1, r2, hstep, hrest, hr⟩ := exec_cons ctx l c ls r h
    subst hr
    cases l with
    | force =>
      have hr1 : r1 = on_force_exit c := by
        simpa [execStep, eq_comm] using hstep
      have hag : r1.1.agents = c.agents := by rw [hr1]; rfl
      exact ih r1.1 r2 (hag ▸ hc) hrest
    | sup =>
      simp only [execStep] at hstep
      rcases runStep_agents ctx c r1 hstep with hag | hag
      · exact ih r1.1 r2 (hag ▸ hc) hrest
      · exact ih r1.1 r2 (Or.inr hag) hrest

lemma countStop_stops_map (nm : String) (p : Nat) :
    ∀ (l : List OrchestratedAgent),
      countStop nm p (l.map fun h => Event.stopAgent h.name h.commPort)
        = countHandle nm p l := by
  intro l
  induction l with
  | nil => rfl
  | cons x xs ih =>
    rw [List.map_cons, countStop, List.countP_cons, countHandle, List.countP_cons]
    rw [countStop, countHandle] at ih
    rw [ih]
    congr 1
    simp [Event.stopAgent.injEq]

lemma countStop_force (c : Core) (nm : String) (p : Nat) :
    countStop nm p (on_force_exit c).2 = countHandle nm p c.agents := by
  show countStop nm p (Event.printForceExit
      :: (c.agents.map fun h => Event.stopAgent h.name h.commPort)) = _
  rw [countStop, List.countP_cons]
  have h0 := countStop_stops_map nm p c.agents
  rw [countStop] at h0
  rw [h0]
  simp

lemma countHandle_le_one_of_pairwise (nm : String) (p : Nat) :
    ∀ (l : List OrchestratedAgent),
      l.Pairwise (fun a b => a.commPort ≠ b.commPort) →
      countHandle nm p l ≤ 1 := by
  intro l
  induction l with
  | nil =>
    intro _
    rw [countHandle]
    simp
  | cons x xs ih =>
    intro hp
    rw [List.pairwise_cons] at hp
    rw [countHandle, List.countP_cons]
    by_cases hx : x.name = nm ∧ x.commPort = p
    · have h0 : List.countP (fun h => decide (h.name = nm ∧ h.commPort = p)) xs = 0 := by
        rw [List.countP_eq_zero]
        intro a ha hcontra
        rw [decide_eq_true_eq] at hcontra
        exact hp.1 a ha (hx.2.trans hcontra.2.symm)
      rw [h0]
      simp [hx]
    · rw [if_neg (by simpa using hx)]
      have hb := ih hp.2
      rw [countHandle] at hb
      omega

lemma cohort_pairwise (ctx : LaunchCtx) :
    (cohortOf ctx).Pairwise (fun a b => a.commPort ≠ b.commPort) := by
  have hmap : ((cohortOf ctx).map fun h => h.commPort)
      = (List.range ctx.names.length).map (fun i => ctx.aPort + i) :=
    startAgentsLoop_map_commPort ctx.oAddr ctx.oPort ctx.aAddr ctx.names
      ctx.aPort ctx.uPort
  have hlt : List.Pairwise (· < ·) ((cohortOf ctx).map fun h => h.commPort) := by
    rw [hmap, List.pairwise_map]
    exact (List.pairwise_lt_range _).imp fun hij => Nat.add_lt_add_left hij _
  exact (List.pairwise_map.mp hlt).imp fun hij => Nat.ne_of_lt hij

end StopCountLemmas

/-- C4 (amended): a single `on_force_exit` invocation delivers `stop()`
exactly once to each handle of the cohort current at that instant (so no
handle ever receives more than one stop from the force-stop path when
force-stop is invoked once): over a full process execution whose schedule
contains exactly one force invocation, the number of `stop()` calls a
handle — identified by its name and message port, which are unique within
a cohort — receives equals its multiplicity in the current cohort, which
is at most one. Repeated invocations, by contrast, re-deliver `stop()` on
each call (see the counterexample). -/
theorem single_force_exit_stops_once (ctx : LaunchCtx) (l1 l2 : List Label)
    (r1 r2 : Core × List Event)
    (h1 : Label.force ∉ l1) (h2 : Label.force ∉ l2)
    (hx1 : exec ctx initCore l1 = some r1)
    (hx2 : exec ctx (on_force_exit r1.1).1 l2 = some r2)
    (nm : String) (p : Nat) :
    countStop nm p (r1.2 ++ (on_force_exit r1.1).2 ++ r2.2)
        = countHandle nm p r1.1.agents
    ∧ countStop nm p (r1.2 ++ (on_force_exit r1.1).2 ++ r2.2) ≤ 1 := by
  have hs1 : countStop nm p r1.2 = 0 :=
    exec_noforce_no_stops ctx nm p l1 initCore r1 h1 hx1
  have hs2 : countStop nm p r2.2 = 0 :=
    exec_noforce_no_stops ctx nm p l2 _ r2 h2 hx2
  have hsf : countStop nm p (on_force_exit r1.1).2 = countHandle nm p r1.1.agents :=
    countStop_force r1.1 nm p
  have hinv : r1.1.agents = [] ∨ r1.1.agents = cohortOf ctx :=
    exec_agents_inv ctx l1 initCore r1 (Or.inl rfl) hx1
  have hle : countHandle nm p r1.1.agents ≤ 1 := by
    rcases hinv with hinv | hinv
    · rw [hinv, countHandle]
      simp
    · rw [hinv]
      exact countHandle_le_one_of_pairwise nm p (cohortOf ctx) (cohort_pairwise ctx)
  have happ : countStop nm p (r1.2 ++ (on_force_exit r1.1).2 ++ r2.2)
      = countStop nm p r1.2 + countStop nm p (on_force_exit r1.1).2
        + countStop nm p r2.2 := by
    rw [countStop_append, countStop_append]
  constructor
  · omega
  · omega

/-- C4 witness: one force-stop right after a concrete single-agent launch
delivers exactly one `stop()` to the handle (a1, 9001). -/
theorem single_force_exit_stops_once_witness :
    countStop "a1" 9001
        ((Event.launch (cohortOf ctx0) :: launchEvs ctx0)
          ++ (on_force_exit ⟨false, cohortOf ctx0, PC.joining (cohortOf ctx0)⟩).2
          ++ ([] : List Event))
      = countHandle "a1" 9001 (cohortOf ctx0)
    ∧ countStop "a1" 9001
        ((Event.launch (cohortOf ctx0) :: launchEvs ctx0)
          ++ (on_force_exit ⟨false, cohortOf ctx0, PC.joining (cohortOf ctx0)⟩).2
          ++ ([] : List Event)) ≤ 1 := by
  have h := single_force_exit_stops_once ctx0 [Label.sup, Label.sup] []
    (⟨false, cohortOf ctx0, PC.joining (cohortOf ctx0)⟩,
      Event.launch (cohortOf ctx0) :: launchEvs ctx0)
    ((on_force_exit ⟨false, cohortOf ctx0, PC.joining (cohortOf ctx0)⟩).1,
      ([] : List Event))
    (by decide) (by decide) (by decide) rfl "a1" 9001
  exact ⟨h.1, h.2⟩

/-- C4 counterexample: the claim as stated — no handle receives more than
one `stop()` from the force-stop path regardless of how many times
force-stop is invoked — fails on the code: `on_force_exit` re-issues
`stop()` to every current handle on every invocation, so two invocations
after one concrete launch deliver two `stop()` calls to agent a1 on port
9001. -/
theorem double_force_exit_double_stop_cex :
    Option.map (fun r => countStop "a1" 9001 r.2)
        (exec ctx0 initCore [Label.sup, Label.sup, Label.force, Label.force])
      = some 2 := by decide

end PydcopAgent
